import Mathlib

/-!
Verification of the patch engine in `src/core/patch.py`.

The Python module is shallowly embedded:
* Python `str` values are Lean `String`s; all string primitives the module
  uses (`startswith`, slicing, `splitlines`, `"\n".join`, `endswith("\n")`)
  are modelled at the character-list level (Python strings are character
  sequences), so every definition is executable and kernel-reducible.
* `dict`s (insertion ordered) are association lists.
* Exceptions (`DiffError`, `KeyError`, `FileNotFoundError`) become an
  `Except PErr` result.
* The parser's `while` loops are written with an explicit fuel parameter;
  running out of fuel yields the distinguished error `PErr.noFuel`, so a
  loop of the Python code that never terminates corresponds to a Lean
  function returning `.error .noFuel` for every fuel value.
* The injected I/O operations of `process_patch` are modelled by a trace:
  the function returns its result together with the ordered list of
  read / write / remove operations it invoked.
-/

/-- Characterwise model of Python `str.startswith`. -/
def strStartsWith (s p : String) : Bool :=
  p.data.isPrefixOf s.data

/-- Characterwise model of Python slicing `s[n:]`. -/
def strDrop (s : String) (n : Nat) : String :=
  ⟨s.data.drop n⟩

/-- Characterwise string length, matching Python `len`. -/
def strLen (s : String) : Nat :=
  s.data.length

/-- Characterwise model of Python `s.endswith("\n")`. -/
def strEndsWithNl (s : String) : Bool :=
  s.data.getLast? == some '\n'

/-- Worker for `pySplitlines`: splits a character list at newline
characters, Python style (no empty trailing piece for a trailing
newline, empty input gives no pieces). -/
def splitLinesGo (acc : List Char) : List Char → List (List Char)
  | [] => if acc.isEmpty then [] else [acc]
  | c :: rest =>
    if c = '\n' then acc :: splitLinesGo [] rest
    else splitLinesGo (acc ++ [c]) rest

/-- Model of Python `str.splitlines` for `'\n'`-separated text (the patch
format is line oriented with `'\n'` terminators). -/
def pySplitlines (s : String) : List String :=
  (splitLinesGo [] s.data).map String.mk

/-- Worker for `joinNl`: Python `"\n".join` on character lists. -/
def joinLinesChar : List (List Char) → List Char
  | [] => []
  | [x] => x
  | x :: y :: rest => x ++ '\n' :: joinLinesChar (y :: rest)

/-- Model of Python `"\n".join(lines)`. -/
def joinNl (xs : List String) : String :=
  ⟨joinLinesChar (xs.map String.data)⟩

/-- Python `ActionType` enum. -/
inductive ActionType where
  | add
  | delete
  | update
deriving DecidableEq, Repr

/-- Python `Chunk` dataclass. -/
structure Chunk where
  orig_index : Nat
  del_lines : List String
  ins_lines : List String
deriving DecidableEq, Repr

/-- Python `PatchAction` dataclass (`__post_init__` turns a missing chunk
list into `[]`, so `chunks` is plain `List Chunk` here). -/
structure PatchAction where
  type : ActionType
  new_file : Option String := none
  chunks : List Chunk := []
  move_path : Option String := none
deriving DecidableEq, Repr

/-- Python `Patch` dataclass; the `actions` dict is an insertion-ordered
association list. -/
structure Patch where
  actions : List (String × PatchAction)
deriving DecidableEq, Repr

/-- Python `FileChange` dataclass. -/
structure FileChange where
  type : ActionType
  old_content : Option String := none
  new_content : Option String := none
  move_path : Option String := none
deriving DecidableEq, Repr

/-- Python `Commit` dataclass. -/
structure Commit where
  changes : List (String × FileChange)
deriving DecidableEq, Repr

/-- Errors of the module: `diff` is a raised `DiffError` with its message,
`fileNotFound` a read of a path absent from the file map, `keyError` a
Python `KeyError` on a dict, and `noFuel` marks loop fuel exhaustion (the
Python code would still be running). -/
inductive PErr where
  | diff (msg : String)
  | fileNotFound (path : String)
  | keyError (path : String)
  | noFuel
deriving DecidableEq, Repr

/-- Inner loop of `find_context` (`for j, ctx_line in enumerate(context)`):
`j` is the current offset in the candidate window at position `i`, `rest`
the remaining context lines, `clen` the full context length. Returns the
`(start, end)` pair exactly as the Python loop does, or `none` when the
candidate does not match. -/
def windowGo (lines : List String) (eof : Bool) (i clen : Nat) :
    Nat → List String → Option (Nat × Nat)
  | _, [] => some (i, i + clen)
  | j, c :: rest =>
    if lines.length ≤ i + j then
      if eof && (j == clen - 1) then some (i, i + j) else none
    else if lines.get? (i + j) == some c then windowGo lines eof i clen (j + 1) rest
    else none

/-- Worker for `findFrom`: `n` counts the candidate positions that remain,
exactly as Python's precomputed `range(start, len(lines))` does. -/
def findFromGo (lines ctx : List String) (eof : Bool) : Nat → Nat → Option (Nat × Nat)
  | 0, _ => none
  | n + 1, i =>
    match windowGo lines eof i ctx.length 0 ctx with
    | some p => some p
    | none => findFromGo lines ctx eof n (i + 1)

/-- Outer loop of `find_context` (`for i in range(start, len(lines))`). -/
def findFrom (lines ctx : List String) (eof : Bool) (start : Nat) : Option (Nat × Nat) :=
  findFromGo lines ctx eof (lines.length - start) start

/-- Python `find_context(lines, context, start, eof)`. -/
def find_context (lines ctx : List String) (start : Nat) (eof : Bool) :
    Except PErr (Nat × Nat) :=
  if ctx.isEmpty then .ok (start, start)
  else
    match findFrom lines ctx eof start with
    | some p => .ok p
    | none => .error (.diff "Context not found")

/-- Specification-side predicate: the context occurs contiguously in the
file lines starting at `i`. -/
def matchesAt (lines ctx : List String) (i : Nat) : Bool :=
  ctx.isPrefixOf (lines.drop i)

/-- Specification-side predicate: candidate position `i` is accepted by the
locator — either the context matches in full, or (`eof` mode) the window
runs exactly one line past the end of the file and every context line but
the last one matches. -/
def AcceptsAt (lines ctx : List String) (eof : Bool) (i : Nat) : Prop :=
  matchesAt lines ctx i = true ∨
    (eof = true ∧ i < lines.length ∧ i + ctx.length = lines.length + 1 ∧
      matchesAt lines ctx.dropLast i = true)

instance (lines ctx : List String) (eof : Bool) (i : Nat) :
    Decidable (AcceptsAt lines ctx eof i) := by
  unfold AcceptsAt; infer_instance

/-- Ports `test_find_context` from `tests/test_patch.py`: interior match. -/
example : find_context ["a", "b", "c", "d", "e"] ["b", "c"] 0 false = .ok (1, 3) := rfl

/-- Ports `test_find_context`: end-of-file match. -/
example : find_context ["a", "b", "c", "d", "e"] ["d", "e"] 0 true = .ok (3, 5) := rfl

/-- Ports `test_find_context`: context absent raises `DiffError`. -/
example : find_context ["a", "b", "c", "d", "e"] ["x", "y"] 0 false =
    .error (.diff "Context not found") := rfl

/-- Parser state: `current_files` and `lines` are the constructor
arguments of Python's `Parser`, `index` its cursor, `actions` the
accumulating `self.patch.actions` dict. (`self.fuzz` is initialised to 0
and never changed, so it is not part of the state.) -/
structure PState where
  current_files : List (String × String)
  lines : List String
  index : Nat
  actions : List (String × PatchAction)
deriving DecidableEq, Repr

/-- Python `Parser.is_done(prefixes)`. -/
def is_done (st : PState) (prefixes : List String) : Bool :=
  decide (st.lines.length ≤ st.index) ||
    (match st.lines.get? st.index with
     | some l => prefixes.any (fun p => strStartsWith l p)
     | none => false)

/-- Python `Parser.startswith(prefix)`. -/
def p_startswith (st : PState) (pre : String) : Bool :=
  match st.lines.get? st.index with
  | some l => strStartsWith l pre
  | none => false

/-- Python `Parser.read_str(prefix, return_everything)`: consumes the
current line when it starts with the prefix, otherwise returns `""`
without moving; raises `DiffError` past the end of input. -/
def read_str (st : PState) (pre : String) (everything : Bool) :
    Except PErr (String × PState) :=
  match st.lines.get? st.index with
  | none =>
    .error (.diff ("Index: " ++ toString st.index ++ " >= " ++ toString st.lines.length))
  | some l =>
    if strStartsWith l pre then
      .ok ((if everything then l else strDrop l (strLen pre)), { st with index := st.index + 1 })
    else
      .ok ("", st)

/-- Hunk-body loop of `Parser.parse_update_file` (`while not
self.is_done(["@@ ", "*** "])`): classifies each line into the chunk's
`del_lines` / `ins_lines`; an empty line `break`s out. -/
def parse_update_inner :
    Nat → PState → List String → List String →
      Except PErr (List String × List String × PState)
  | 0, _, _, _ => .error .noFuel
  | fuel + 1, st, del, ins =>
    if is_done st ["@@ ", "*** "] then .ok (del, ins, st)
    else
      match read_str st "" true with
      | .error e => .error e
      | .ok (line, st') =>
        if line = "" then .ok (del, ins, st')
        else if strStartsWith line "-" then
          parse_update_inner fuel st' (del ++ [strDrop line 1]) ins
        else if strStartsWith line "+" then
          parse_update_inner fuel st' del (ins ++ [strDrop line 1])
        else if !(strStartsWith line "@@ ") then
          parse_update_inner fuel st' (del ++ [line]) (ins ++ [line])
        else
          parse_update_inner fuel st' del ins

/-- Outer loop of `Parser.parse_update_file` (`while not
self.is_done(["*** "])`): consumes a `"@@ "` header and a hunk body per
iteration; on any other line no branch fires and the loop repeats with an
unchanged state, exactly as in the Python code. -/
def parse_update_outer : Nat → PState → List Chunk → Except PErr (List Chunk × PState)
  | 0, _, _ => .error .noFuel
  | fuel + 1, st, chunks =>
    if is_done st ["*** "] then .ok (chunks, st)
    else if p_startswith st "@@ " then
      match parse_update_inner fuel { st with index := st.index + 1 } [] [] with
      | .error e => .error e
      | .ok (del, ins, st') =>
        parse_update_outer fuel st' (chunks ++ [⟨0, del, ins⟩])
    else
      parse_update_outer fuel st chunks

/-- Python `Parser.parse_update_file(text)`. The local
`lines = text.splitlines()` of the Python function is dead code (never
read), so `text` is simply ignored here as well. -/
def parse_update_file (fuel : Nat) (st : PState) (text : String) :
    Except PErr (PatchAction × PState) :=
  match parse_update_outer fuel st [] with
  | .error e => .error e
  | .ok (chunks, st') =>
    .ok ({ type := ActionType.update, chunks := chunks }, st')

/-- Body loop of `Parser.parse_add_file`: collects the non-empty lines
until the next `"*** "` directive. -/
def parse_add_loop : Nat → PState → List String → Except PErr (List String × PState)
  | 0, _, _ => .error .noFuel
  | fuel + 1, st, acc =>
    if is_done st ["*** "] then .ok (acc, st)
    else
      match read_str st "" false with
      | .error e => .error e
      | .ok (line, st') =>
        parse_add_loop fuel st' (if line = "" then acc else acc ++ [line])

/-- Python `Parser.parse_add_file()`. -/
def parse_add_file (fuel : Nat) (st : PState) : Except PErr (PatchAction × PState) :=
  match parse_add_loop fuel st [] with
  | .error e => .error e
  | .ok (ls, st') =>
    .ok ({ type := ActionType.add, new_file := some (joinNl ls) }, st')

/-- Main loop of `Parser.parse` (`while not
self.is_done(["*** End Patch"])`): tries the three directive prefixes in
order, checking duplicate registration before anything else for each. -/
def parse_loop : Nat → PState → Except PErr PState
  | 0, _ => .error .noFuel
  | fuel + 1, st =>
    if is_done st ["*** End Patch"] then .ok st
    else
      match read_str st "*** Update File: " false with
      | .error e => .error e
      | .ok (path, st1) =>
        if path ≠ "" then
          if (st1.actions.lookup path).isSome then
            .error (.diff ("Update File Error: Duplicate Path: " ++ path))
          else
            match read_str st1 "*** Move to: " false with
            | .error e => .error e
            | .ok (moveTo, st2) =>
              if (st2.current_files.lookup path) = none then
                .error (.diff ("Update File Error: Missing File: " ++ path))
              else
                match parse_update_file fuel st2 ((st2.current_files.lookup path).getD "") with
                | .error e => .error e
                | .ok (action, st3) =>
                  let action :=
                    if moveTo ≠ "" then { action with move_path := some moveTo } else action
                  parse_loop fuel { st3 with actions := st3.actions ++ [(path, action)] }
        else
          match read_str st1 "*** Add File: " false with
          | .error e => .error e
          | .ok (path, st2) =>
            if path ≠ "" then
              if (st2.actions.lookup path).isSome then
                .error (.diff ("Add File Error: Duplicate Path: " ++ path))
              else
                match parse_add_file fuel st2 with
                | .error e => .error e
                | .ok (action, st3) =>
                  parse_loop fuel { st3 with actions := st3.actions ++ [(path, action)] }
            else
              match read_str st2 "*** Delete File: " false with
              | .error e => .error e
              | .ok (path, st3) =>
                if path ≠ "" then
                  if (st3.actions.lookup path).isSome then
                    .error (.diff ("Delete File Error: Duplicate Path: " ++ path))
                  else if (st3.current_files.lookup path) = none then
                    .error (.diff ("Delete File Error: Missing File: " ++ path))
                  else
                    parse_loop fuel
                      { st3 with actions :=
                          st3.actions ++ [(path, ⟨ActionType.delete, none, [], none⟩)] }
                else
                  match st3.lines.get? st3.index with
                  | some l => .error (.diff ("Parse Error: " ++ l))
                  | none => .error (.diff "Parse Error")

/-- Python `Parser.parse()` on a fresh parser: skips a leading
`*** Begin Patch` line, then runs the main loop and yields the actions. -/
def parser_parse (fuel : Nat) (files : List (String × String)) (lines : List String) :
    Except PErr (List (String × PatchAction)) :=
  let st0 : PState := ⟨files, lines, 0, []⟩
  let st1 := if p_startswith st0 "*** Begin Patch" then { st0 with index := 1 } else st0
  match parse_loop fuel st1 with
  | .error e => .error e
  | .ok st => .ok st.actions

/-- Python `text_to_patch(text, orig)`; the second component is the fuzz
counter, which is always 0. -/
def text_to_patch (fuel : Nat) (text : String) (orig : List (String × String)) :
    Except PErr (Patch × Nat) :=
  if !(strStartsWith text "*** Begin Patch") then
    .error (.diff "Patch must start with *** Begin Patch")
  else
    match parser_parse fuel orig (pySplitlines text) with
    | .error e => .error e
    | .ok acts => .ok (⟨acts⟩, 0)

/-- Python `identify_files_needed(text)`. -/
def identify_files_needed (text : String) : List String :=
  (pySplitlines text).filterMap fun l =>
    if strStartsWith l "*** Update File: " then some (strDrop l (strLen "*** Update File: "))
    else if strStartsWith l "*** Delete File: " then some (strDrop l (strLen "*** Delete File: "))
    else none

/-- Python `identify_files_added(text)`. -/
def identify_files_added (text : String) : List String :=
  (pySplitlines text).filterMap fun l =>
    if strStartsWith l "*** Add File: " then some (strDrop l (strLen "*** Add File: "))
    else none

/-- Chunk-application loop of `_get_updated_file`: every location query
runs on the pristine `origLines` with offset 0 and `eof=False`, while the
splice `new_lines[start:end] = ins_lines` lands on the working buffer
`buf` (Python slice assignment, with clamping). -/
def apply_chunks (origLines : List String) (path : String) :
    List Chunk → List String → Except PErr (List String)
  | [], buf => .ok buf
  | c :: rest, buf =>
    match find_context origLines c.del_lines 0 false with
    | .error _ => .error (.diff ("Failed to apply chunk in " ++ path))
    | .ok (s, e) => apply_chunks origLines path rest (buf.take s ++ c.ins_lines ++ buf.drop e)

/-- Python `_get_updated_file(text, action, path)`. -/
def get_updated_file (text : String) (action : PatchAction) (path : String) :
    Except PErr String :=
  if action.type ≠ ActionType.update then
    .error (.diff ("Invalid action type for " ++ path))
  else
    match apply_chunks (pySplitlines text) path action.chunks (pySplitlines text) with
    | .error e => .error e
    | .ok newLines =>
      if strEndsWithNl text then .ok (joinNl newLines ++ "\n")
      else .ok (joinNl newLines)

/-- Per-action body of `patch_to_commit`, in dict order; a missing `orig`
entry is Python's uncaught `KeyError`. -/
def patch_to_commit_changes :
    List (String × PatchAction) → List (String × String) →
      Except PErr (List (String × FileChange))
  | [], _ => .ok []
  | (path, action) :: rest, orig =>
    match action.type with
    | ActionType.delete =>
      match orig.lookup path with
      | none => .error (.keyError path)
      | some old =>
        match patch_to_commit_changes rest orig with
        | .error e => .error e
        | .ok cs => .ok ((path, { type := ActionType.delete, old_content := some old }) :: cs)
    | ActionType.add =>
      match patch_to_commit_changes rest orig with
      | .error e => .error e
      | .ok cs => .ok ((path, { type := ActionType.add, new_content := action.new_file }) :: cs)
    | ActionType.update =>
      match orig.lookup path with
      | none => .error (.keyError path)
      | some old =>
        match get_updated_file old action path with
        | .error e => .error e
        | .ok newContent =>
          match patch_to_commit_changes rest orig with
          | .error e => .error e
          | .ok cs =>
            .ok ((path,
              { type := ActionType.update, old_content := some old,
                new_content := some newContent, move_path := action.move_path }) :: cs)

/-- Python `patch_to_commit(patch, orig)`. -/
def patch_to_commit (patch : Patch) (orig : List (String × String)) : Except PErr Commit :=
  match patch_to_commit_changes patch.actions orig with
  | .error e => .error e
  | .ok cs => .ok ⟨cs⟩

/-- One injected operation of `process_patch`, recorded in call order. -/
inductive FileOp where
  | read (path : String)
  | write (path content : String)
  | remove (path : String)
deriving DecidableEq, Repr

/-- Snapshot-building comprehension `{p: open_fn(p) for p in paths}` of
`process_patch`, with `open_fn` reading from the file map `fs`; a path
absent from `fs` makes `open_fn` raise, stopping the comprehension. -/
def read_files : List String → List (String × String) →
    Except PErr (List (String × String)) × List FileOp
  | [], _ => (.ok [], [])
  | p :: rest, fs =>
    match fs.lookup p with
    | none => (.error (.fileNotFound p), [FileOp.read p])
    | some c =>
      match read_files rest fs with
      | (.error e, ops) => (.error e, FileOp.read p :: ops)
      | (.ok m, ops) => (.ok ((p, c) :: m), FileOp.read p :: ops)

/-- Operations emitted by `process_patch` for one `FileChange`: Delete →
remove; Add → write; Update with a rename → write to the new path then
remove the old one; plain Update → write in place. -/
def emit_change : String × FileChange → List FileOp
  | (path, change) =>
    match change.type with
    | ActionType.delete => [FileOp.remove path]
    | ActionType.add => [FileOp.write path (change.new_content.getD "")]
    | ActionType.update =>
      match change.move_path with
      | some m => [FileOp.write m (change.new_content.getD ""), FileOp.remove path]
      | none => [FileOp.write path (change.new_content.getD "")]

/-- Application loop of `process_patch` over `commit.changes.items()`. -/
def apply_commit_ops (changes : List (String × FileChange)) : List FileOp :=
  (changes.map emit_change).flatten

/-- Python `process_patch(text, open_fn, write_fn, remove_fn)` with the
three injected operations realised over the in-memory file map `fs`:
returns the result together with the trace of operations invoked. -/
def process_patch (fuel : Nat) (text : String) (fs : List (String × String)) :
    Except PErr String × List FileOp :=
  if !(strStartsWith text "*** Begin Patch") then
    (.error (.diff "Patch must start with *** Begin Patch"), [])
  else
    match read_files (identify_files_needed text) fs with
    | (.error e, ops) => (.error e, ops)
    | (.ok orig, ops) =>
      match text_to_patch fuel text orig with
      | .error e => (.error e, ops)
      | .ok (patch, _) =>
        match patch_to_commit patch orig with
        | .error e => (.error e, ops)
        | .ok commit => (.ok "Done!", ops ++ apply_commit_ops commit.changes)

/-- Closed form of the inner window loop: invariant over the remaining
context `rest` at window offset `j`. Either the remaining lines all match
(full match), or `eof` mode accepts with only the very last context line
hanging one line past the end of the file, or the candidate is rejected. -/
theorem windowGo_closed (lines : List String) (eof : Bool) (i clen : Nat)
    (rest : List String) (j : Nat) (hj : j + rest.length = clen)
    (hi : i + j ≤ lines.length) :
    windowGo lines eof i clen j rest =
      if rest.isPrefixOf (lines.drop (i + j)) then some (i, i + clen)
      else if eof && (i + j + rest.length == lines.length + 1)
          && rest.dropLast.isPrefixOf (lines.drop (i + j)) then some (i, i + clen - 1)
      else none := by
  induction rest generalizing j with
  | nil => simp [windowGo]
  | cons c rs ih =>
    by_cases hlen : lines.length ≤ i + j
    · have hij : i + j = lines.length := Nat.le_antisymm hi hlen
      have hdropnil : lines.drop (i + j) = [] := List.drop_eq_nil_of_le hlen
      rw [windowGo, if_pos hlen]
      cases rs with
      | nil =>
        have e1 : (c :: List.nil).isPrefixOf (lines.drop (i + j)) = false := by
          rw [hdropnil]; rfl
        have e2 : (c :: List.nil).dropLast.isPrefixOf (lines.drop (i + j)) = true := by
          rw [hdropnil]; rfl
        have e3 : (i + j + (c :: List.nil).length == lines.length + 1) = true := by
          simp [hij]
        have e4 : (j == clen - 1) = true := by
          simp only [List.length_cons, List.length_nil] at hj
          simp; omega
        have e5 : i + clen - 1 = i + j := by
          simp only [List.length_cons, List.length_nil] at hj
          omega
        simp only [e1, e2, e3, e4, e5, Bool.and_true, Bool.false_eq_true, if_false]
      | cons c2 rs2 =>
        have e1 : (c :: c2 :: rs2).isPrefixOf (lines.drop (i + j)) = false := by
          rw [hdropnil]; rfl
        have e2 : (c :: c2 :: rs2).dropLast.isPrefixOf (lines.drop (i + j)) = false := by
          rw [hdropnil]; rfl
        have e3 : (i + j + (c :: c2 :: rs2).length == lines.length + 1) = false := by
          simp only [List.length_cons]
          simp; omega
        have e4 : (j == clen - 1) = false := by
          simp only [List.length_cons] at hj
          simp; omega
        simp only [e1, e2, e3, e4, Bool.and_false, Bool.false_and, Bool.and_eq_true,
          Bool.false_eq_true, if_false]
    · have hlt : i + j < lines.length := Nat.lt_of_not_le hlen
      have hget : lines.get? (i + j) = some lines[i + j] := by
        simp [List.get?_eq_getElem?, List.getElem?_eq_getElem hlt]
      have hdropcons : lines.drop (i + j) = lines[i + j] :: lines.drop (i + j + 1) :=
        List.drop_eq_getElem_cons hlt
      rw [windowGo, if_neg hlen, hget]
      by_cases hc : lines[i + j] = c
      · have hbeq : (some lines[i + j] == some c) = true := by simp [hc]
        rw [hbeq, if_pos rfl]
        have hcb : (c == lines[i + j]) = true := by simp [hc]
        cases rs with
        | nil =>
          have e1 : (c :: List.nil).isPrefixOf (lines.drop (i + j)) = true := by
            rw [hdropcons]
            simp only [List.isPrefixOf_cons₂, hcb, Bool.true_and, List.isPrefixOf_nil_left]
          rw [windowGo, e1, if_pos rfl]
        | cons c2 rs2 =>
          have ih' := ih (j + 1) (by simp only [List.length_cons] at hj ⊢; omega) (by omega)
          have harith : i + (j + 1) = i + j + 1 := by omega
          rw [harith] at ih'
          rw [ih']
          have e1 : (c :: c2 :: rs2).isPrefixOf (lines.drop (i + j)) =
              (c2 :: rs2).isPrefixOf (lines.drop (i + j + 1)) := by
            rw [hdropcons]
            simp only [List.isPrefixOf_cons₂, hcb, Bool.true_and]
          have e2 : (c :: c2 :: rs2).dropLast.isPrefixOf (lines.drop (i + j)) =
              (c2 :: rs2).dropLast.isPrefixOf (lines.drop (i + j + 1)) := by
            rw [hdropcons]
            show (c :: (c2 :: rs2).dropLast).isPrefixOf _ = _
            simp only [List.isPrefixOf_cons₂, hcb, Bool.true_and]
          have e3 : (i + j + 1 + (c2 :: rs2).length == lines.length + 1) =
              (i + j + (c :: c2 :: rs2).length == lines.length + 1) := by
            have : i + j + 1 + (c2 :: rs2).length = i + j + (c :: c2 :: rs2).length := by
              simp only [List.length_cons]; omega
            rw [this]
          rw [e1, e2, e3]
      · have hbeq : (some lines[i + j] == some c) = false := by
          simp only [beq_eq_false_iff_ne, ne_eq, Option.some.injEq]
          exact fun h => hc h
        rw [hbeq]
        simp only [Bool.false_eq_true, if_false]
        have hcb : (c == lines[i + j]) = false := by
          simp only [beq_eq_false_iff_ne, ne_eq]
          exact fun h => hc h.symm
        have e1 : (c :: rs).isPrefixOf (lines.drop (i + j)) = false := by
          rw [hdropcons]
          simp only [List.isPrefixOf_cons₂, hcb, Bool.false_and]
        cases rs with
        | nil =>
          have e3 : (i + j + (c :: List.nil).length == lines.length + 1) = false := by
            simp; omega
          simp only [e1, e3, Bool.and_false, Bool.false_and, Bool.false_eq_true, if_false]
        | cons c2 rs2 =>
          have e2 : (c :: c2 :: rs2).dropLast.isPrefixOf (lines.drop (i + j)) = false := by
            rw [hdropcons]
            show (c :: (c2 :: rs2).dropLast).isPrefixOf _ = false
            simp only [List.isPrefixOf_cons₂, hcb, Bool.false_and]
          simp only [e1, e2, Bool.and_false, Bool.false_eq_true, if_false]

/-- Accepted candidates of a nonempty context lie strictly inside the file. -/
theorem acceptsAt_lt_length {lines ctx : List String} {eof : Bool} {k : Nat}
    (hctx : ctx ≠ []) (h : AcceptsAt lines ctx eof k) : k < lines.length := by
  rcases h with h | ⟨_, h2, _, _⟩
  · unfold matchesAt at h
    have hpre := List.isPrefixOf_iff_prefix.mp h
    have hlen := hpre.length_le
    have hpos : 0 < ctx.length := List.length_pos.mpr hctx
    simp only [List.length_drop] at hlen
    omega
  · exact h2

/-- The inner window loop, run on a whole context at a position inside the
file, succeeds exactly on accepted candidates, with the end index of the
matched span determined by whether the match was full or `eof`-tolerated. -/
theorem windowGo_top (lines ctx : List String) (eof : Bool) (i : Nat)
    (hi : i < lines.length) :
    windowGo lines eof i ctx.length 0 ctx =
      if AcceptsAt lines ctx eof i then
        some (i, if matchesAt lines ctx i then i + ctx.length else i + ctx.length - 1)
      else none := by
  have h := windowGo_closed lines eof i ctx.length ctx 0 (by omega) (by omega)
  simp only [Nat.zero_add, Nat.add_zero] at h
  rw [h]
  by_cases hm : matchesAt lines ctx i = true
  · have hacc : AcceptsAt lines ctx eof i := Or.inl hm
    unfold matchesAt at hm
    rw [hm]
    simp [hacc, matchesAt, hm]
  · have hm' : ctx.isPrefixOf (lines.drop i) = false := by
      unfold matchesAt at hm
      exact Bool.eq_false_iff.mpr hm
    have hmm : matchesAt lines ctx i = false := hm'
    rw [hm']
    by_cases he : (eof && (i + ctx.length == lines.length + 1)
        && ctx.dropLast.isPrefixOf (lines.drop i)) = true
    · have hee := Bool.and_eq_true_iff.mp he
      have he1 := Bool.and_eq_true_iff.mp hee.1
      have hacc : AcceptsAt lines ctx eof i :=
        Or.inr ⟨he1.1, hi, by simpa using he1.2, hee.2⟩
      simp only [he]
      simp [hacc, hmm]
    · have he' : (eof && (i + ctx.length == lines.length + 1)
          && ctx.dropLast.isPrefixOf (lines.drop i)) = false := Bool.eq_false_iff.mpr he
      have hacc : ¬ AcceptsAt lines ctx eof i := by
        intro hA
        rcases hA with h1 | ⟨h1, _, h3, h4⟩
        · rw [hmm] at h1; exact Bool.false_ne_true h1
        · apply he
          unfold matchesAt at h4
          simp [h1, h3, h4]
      simp only [he']
      simp [hacc]

/-- Success characterization of the candidate scan: a hit is the first
accepted position at or after the scan start. -/
theorem findFromGo_some (lines ctx : List String) (eof : Bool) :
    ∀ (n i : Nat), i + n = lines.length →
    ∀ s e, findFromGo lines ctx eof n i = some (s, e) →
      i ≤ s ∧ s < lines.length ∧ AcceptsAt lines ctx eof s ∧
      (∀ k, i ≤ k → k < s → ¬ AcceptsAt lines ctx eof k) ∧
      e = (if matchesAt lines ctx s then s + ctx.length else s + ctx.length - 1) := by
  intro n
  induction n with
  | zero =>
    intro i h s e hf
    simp [findFromGo] at hf
  | succ n ihn =>
    intro i h s e hf
    have hi : i < lines.length := by omega
    rw [findFromGo, windowGo_top lines ctx eof i hi] at hf
    by_cases hacc : AcceptsAt lines ctx eof i
    · rw [if_pos hacc] at hf
      have hs : i = s ∧ (if matchesAt lines ctx i then i + ctx.length
          else i + ctx.length - 1) = e := by
        have := Option.some.inj hf
        exact ⟨congrArg Prod.fst this, congrArg Prod.snd this⟩
      obtain ⟨hs1, hs2⟩ := hs
      subst hs1
      refine ⟨Nat.le_refl i, hi, hacc, ?_, hs2.symm⟩
      intro k hk1 hk2
      omega
    · rw [if_neg hacc] at hf
      obtain ⟨h1, h2, h3, h4, h5⟩ := ihn (i + 1) (by omega) s e hf
      refine ⟨by omega, h2, h3, ?_, h5⟩
      intro k hk1 hk2
      rcases Nat.eq_or_lt_of_le hk1 with hk | hk
      · rw [← hk]; exact hacc
      · exact h4 k hk hk2

/-- Failure characterization of the candidate scan: it returns nothing
exactly when no position at or after the scan start is accepted. -/
theorem findFromGo_none_iff (lines ctx : List String) (eof : Bool) (hctx : ctx ≠ []) :
    ∀ (n i : Nat), i + n = lines.length →
      (findFromGo lines ctx eof n i = none ↔
        ∀ k, i ≤ k → ¬ AcceptsAt lines ctx eof k) := by
  intro n
  induction n with
  | zero =>
    intro i h
    simp only [findFromGo, true_iff]
    intro k hk hacc
    have := acceptsAt_lt_length hctx hacc
    omega
  | succ n ihn =>
    intro i h
    have hi : i < lines.length := by omega
    rw [findFromGo, windowGo_top lines ctx eof i hi]
    by_cases hacc : AcceptsAt lines ctx eof i
    · rw [if_pos hacc]
      refine iff_of_false (by simp) ?_
      intro hall
      exact (hall i (Nat.le_refl i)) hacc
    · rw [if_neg hacc]
      rw [ihn (i + 1) (by omega)]
      constructor
      · intro hall k hk
        rcases Nat.eq_or_lt_of_le hk with hk' | hk'
        · rw [← hk']; exact hacc
        · exact hall k hk'
      · intro hall k hk
        exact hall k (by omega)

/-- Success characterization of `find_context` for nonempty context: the
returned span starts at the first accepted candidate at or after `start`,
and its end is `start + length` for a full match, one less when the `eof`
tolerance fired. -/
theorem find_context_ok_char (lines ctx : List String) (start : Nat) (eof : Bool)
    (hctx : ctx ≠ []) (s e : Nat)
    (h : find_context lines ctx start eof = .ok (s, e)) :
    start ≤ s ∧ s < lines.length ∧ AcceptsAt lines ctx eof s ∧
    (∀ k, start ≤ k → k < s → ¬ AcceptsAt lines ctx eof k) ∧
    e = (if matchesAt lines ctx s then s + ctx.length else s + ctx.length - 1) := by
  unfold find_context at h
  have hne : ctx.isEmpty = false := by
    cases ctx with
    | nil => exact absurd rfl hctx
    | cons a l => rfl
  rw [hne] at h
  simp only [Bool.false_eq_true, if_false] at h
  cases hf : findFrom lines ctx eof start with
  | none => rw [hf] at h; exact absurd h (by simp)
  | some p =>
    rw [hf] at h
    have hp : p = (s, e) := by
      have := Except.ok.inj h
      exact this
    subst hp
    unfold findFrom at hf
    by_cases hs : start < lines.length
    · exact findFromGo_some lines ctx eof (lines.length - start) start (by omega) s e hf
    · have h0 : lines.length - start = 0 := by omega
      rw [h0] at hf
      simp [findFromGo] at hf

/-- Failure characterization of `find_context` for nonempty context: when
no candidate at or after `start` is accepted, it raises the
`Context not found` error. -/
theorem find_context_not_found (lines ctx : List String) (start : Nat) (eof : Bool)
    (hctx : ctx ≠ []) (h : ∀ k, start ≤ k → ¬ AcceptsAt lines ctx eof k) :
    find_context lines ctx start eof = .error (.diff "Context not found") := by
  unfold find_context
  have hne : ctx.isEmpty = false := by
    cases ctx with
    | nil => exact absurd rfl hctx
    | cons a l => rfl
  rw [hne]
  simp only [Bool.false_eq_true, if_false]
  have hnone : findFrom lines ctx eof start = none := by
    unfold findFrom
    by_cases hs : start < lines.length
    · exact (findFromGo_none_iff lines ctx eof hctx (lines.length - start) start
        (by omega)).mpr h
    · have h0 : lines.length - start = 0 := by omega
      rw [h0]
      rfl
  rw [hnone]

/-- Reachability: any accepted candidate at or after `start` forces
`find_context` to succeed, at a position no later than that candidate. -/
theorem find_context_reach (lines ctx : List String) (start i : Nat) (eof : Bool)
    (hctx : ctx ≠ []) (hsi : start ≤ i) (hacc : AcceptsAt lines ctx eof i) :
    ∃ s e, find_context lines ctx start eof = .ok (s, e) ∧ s ≤ i := by
  have hilt : i < lines.length := acceptsAt_lt_length hctx hacc
  have hsome : findFrom lines ctx eof start ≠ none := by
    intro hnone
    unfold findFrom at hnone
    have hs : start < lines.length := by omega
    have := (findFromGo_none_iff lines ctx eof hctx (lines.length - start) start
      (by omega)).mp hnone
    exact (this i hsi) hacc
  cases hf : findFrom lines ctx eof start with
  | none => exact absurd hf hsome
  | some p =>
    obtain ⟨s, e⟩ := p
    have hok : find_context lines ctx start eof = .ok (s, e) := by
      unfold find_context
      have hne : ctx.isEmpty = false := by
        cases ctx with
        | nil => exact absurd rfl hctx
        | cons a l => rfl
      rw [hne]
      simp only [Bool.false_eq_true, if_false]
      rw [hf]
    obtain ⟨_, _, _, hmin, _⟩ := find_context_ok_char lines ctx start eof hctx s e hok
    refine ⟨s, e, hok, ?_⟩
    by_contra hgt
    exact (hmin i hsi (by omega)) hacc

/-- C4: for every list of file lines, context list, start offset, and eof
flag, the context locator returns the first index at or after the offset
where the context is accepted — full contiguous match, or (`eof` only) a
window running exactly one line past the end with precisely the last
context line missing; an empty context matches trivially at the given
start with a zero-length span; and if no candidate is accepted it raises
the context-not-found error. -/
theorem claim_C4 (lines ctx : List String) (start : Nat) (eof : Bool) :
    (ctx = [] → find_context lines ctx start eof = .ok (start, start)) ∧
    (ctx ≠ [] → ∀ s e, find_context lines ctx start eof = .ok (s, e) →
      start ≤ s ∧ AcceptsAt lines ctx eof s ∧
      (∀ k, start ≤ k → k < s → ¬ AcceptsAt lines ctx eof k) ∧
      ((matchesAt lines ctx s = true ∧ e = s + ctx.length) ∨
        (matchesAt lines ctx s = false ∧ eof = true ∧ s < lines.length ∧
          s + ctx.length = lines.length + 1 ∧
          matchesAt lines ctx.dropLast s = true ∧ e = s + ctx.length - 1))) ∧
    (ctx ≠ [] → (∀ k, start ≤ k → ¬ AcceptsAt lines ctx eof k) →
      find_context lines ctx start eof = .error (.diff "Context not found")) := by
  refine ⟨?_, ?_, ?_⟩
  · intro h
    subst h
    rfl
  · intro hctx s e h
    obtain ⟨h1, h2, h3, h4, h5⟩ := find_context_ok_char lines ctx start eof hctx s e h
    refine ⟨h1, h3, h4, ?_⟩
    by_cases hm : matchesAt lines ctx s = true
    · exact Or.inl ⟨hm, by rw [h5, if_pos hm]⟩
    · have hm' : matchesAt lines ctx s = false := Bool.eq_false_iff.mpr hm
      rcases h3 with hA | ⟨hA1, hA2, hA3, hA4⟩
      · exact absurd hA hm
      · exact Or.inr ⟨hm', hA1, hA2, hA3, hA4, by rw [h5, if_neg hm]⟩
  · intro hctx h
    exact find_context_not_found lines ctx start eof hctx h

/-- Witness for C4 at a concrete input: the locator finds `["b"]` in
`["a", "b"]` at position 1 with span `(1, 2)`, and that position satisfies
the first-accepted-candidate contract. -/
theorem claim_C4_witness :
    (0 : Nat) ≤ 1 ∧ AcceptsAt ["a", "b"] ["b"] false 1 ∧
    (∀ k, 0 ≤ k → k < 1 → ¬ AcceptsAt ["a", "b"] ["b"] false k) ∧
    ((matchesAt ["a", "b"] ["b"] 1 = true ∧ 2 = 1 + (["b"] : List String).length) ∨
      (matchesAt ["a", "b"] ["b"] 1 = false ∧ false = true ∧
        1 < (["a", "b"] : List String).length ∧
        1 + (["b"] : List String).length = (["a", "b"] : List String).length + 1 ∧
        matchesAt ["a", "b"] (["b"] : List String).dropLast 1 = true ∧
        2 = 1 + (["b"] : List String).length - 1)) :=
  (claim_C4 ["a", "b"] ["b"] 0 false).2.1 (by simp) 1 2 rfl

/-- C5: a hunk whose `del_lines` consist of lines matching the tail of the
file plus exactly one extra line past the file's last line is, with `eof`
allowed, matched at the tail (span ending at the file's length) rather
than rejected with the context-not-found error. -/
theorem claim_C5 (lines ctx0 : List String) (l : String) (start i : Nat)
    (h0 : ctx0 ≠ []) (hi : i + ctx0.length = lines.length)
    (htail : lines.drop i = ctx0) (hstart : start ≤ i) :
    (∃ s e, find_context lines (ctx0 ++ [l]) start true = .ok (s, e) ∧ s ≤ i) ∧
    ((∀ k, start ≤ k → k < i → ¬ AcceptsAt lines (ctx0 ++ [l]) true k) →
      find_context lines (ctx0 ++ [l]) start true = .ok (i, lines.length)) := by
  have hctx : ctx0 ++ [l] ≠ [] := by simp
  have hpos : 0 < ctx0.length := List.length_pos.mpr h0
  have hilt : i < lines.length := by omega
  have hacc : AcceptsAt lines (ctx0 ++ [l]) true i := by
    right
    refine ⟨rfl, hilt, ?_, ?_⟩
    · simp only [List.length_append, List.length_cons, List.length_nil]
      omega
    · unfold matchesAt
      rw [List.dropLast_concat, htail]
      simp [List.isPrefixOf_iff_prefix]
  constructor
  · exact find_context_reach lines (ctx0 ++ [l]) start i true hctx hstart hacc
  · intro hnone
    obtain ⟨s, e, hok, hsi⟩ :=
      find_context_reach lines (ctx0 ++ [l]) start i true hctx hstart hacc
    obtain ⟨h1, h2, h3, h4, h5⟩ :=
      find_context_ok_char lines (ctx0 ++ [l]) start true hctx s e hok
    have hseq : s = i := by
      rcases Nat.lt_or_ge s i with hlt2 | hge
      · exact absurd h3 (hnone s h1 hlt2)
      · omega
    subst hseq
    have hmf : matchesAt lines (ctx0 ++ [l]) s = false := by
      unfold matchesAt
      rw [htail]
      by_contra hcon
      have hcon' : (ctx0 ++ [l]).isPrefixOf ctx0 = true := by
        revert hcon
        cases (ctx0 ++ [l]).isPrefixOf ctx0 <;> simp
      have hp := List.isPrefixOf_iff_prefix.mp hcon'
      have hple := hp.length_le
      simp only [List.length_append, List.length_cons, List.length_nil] at hple
      omega
    have he : e = lines.length := by
      rw [h5, if_neg (by rw [hmf]; exact Bool.false_ne_true)]
      simp only [List.length_append, List.length_cons, List.length_nil]
      omega
    rw [← he]
    exact hok

/-- Witness for C5 at a concrete input: context `["b", "c"]` hangs one
line past the end of file `["a", "b"]`; with `eof` allowed it is matched
at the tail. -/
theorem claim_C5_witness :
    ∃ s e, find_context ["a", "b"] (["b"] ++ ["c"]) 0 true = .ok (s, e) ∧ s ≤ 1 :=
  (claim_C5 ["a", "b"] ["b"] "c" 0 1 (by simp) rfl rfl (by omega)).1

/-- Specification-side restatement of the Commit Builder algorithm (spec
section 4.3): locate every chunk in the pristine original lines starting
from offset 0 and splice its `ins_lines` into one cumulative working
buffer. A chunk that fails to locate is skipped here; the theorems only
use this function under the hypothesis that every chunk locates. -/
def update_buffer (origLines : List String) : List Chunk → List String → List String
  | [], buf => buf
  | c :: rest, buf =>
    match find_context origLines c.del_lines 0 false with
    | .ok (s, e) => update_buffer origLines rest (buf.take s ++ c.ins_lines ++ buf.drop e)
    | .error _ => update_buffer origLines rest buf

/-- The chunk-application loop fails (with the per-file error message)
exactly on a chunk that does not locate in the original lines, and under
all-chunks-locate it computes the cumulative working buffer. -/
theorem apply_chunks_char (origLines : List String) (path : String) :
    ∀ (chunks : List Chunk) (buf : List String),
      ((∃ c ∈ chunks, ∃ msg,
          find_context origLines c.del_lines 0 false = .error msg) →
        apply_chunks origLines path chunks buf =
          .error (.diff ("Failed to apply chunk in " ++ path))) ∧
      ((∀ c ∈ chunks, ∃ p, find_context origLines c.del_lines 0 false = .ok p) →
        apply_chunks origLines path chunks buf =
          .ok (update_buffer origLines chunks buf)) := by
  intro chunks
  induction chunks with
  | nil =>
    intro buf
    constructor
    · rintro ⟨c, hc, -⟩
      exact absurd hc (List.not_mem_nil c)
    · intro _
      rfl
  | cons c rest ih =>
    intro buf
    constructor
    · rintro ⟨c', hc', msg, hmsg⟩
      cases hf : find_context origLines c.del_lines 0 false with
      | error err => simp [apply_chunks, hf]
      | ok p =>
        obtain ⟨s, e⟩ := p
        rcases List.mem_cons.mp hc' with rfl | hmem
        · rw [hf] at hmsg
          exact absurd hmsg (by simp)
        · simp only [apply_chunks, hf]
          exact (ih _).1 ⟨c', hmem, msg, hmsg⟩
    · intro hall
      obtain ⟨p, hp⟩ := hall c (List.mem_cons_self c rest)
      obtain ⟨s, e⟩ := p
      simp only [apply_chunks, update_buffer, hp]
      exact (ih _).2 (fun c' hc' => hall c' (List.mem_cons_of_mem c hc'))

/-- C3: for an Update action, every chunk is located in the original,
unmodified line sequence (offset 0, no eof tolerance) while the splices
accumulate on a single working copy, and a context-not-found failure for
any chunk aborts the whole Update of that file with a hard error and no
content. -/
theorem claim_C3 (text : String) (action : PatchAction) (path : String)
    (hty : action.type = ActionType.update) :
    ((∃ c ∈ action.chunks, ∃ msg,
        find_context (pySplitlines text) c.del_lines 0 false = .error msg) →
      get_updated_file text action path =
        .error (.diff ("Failed to apply chunk in " ++ path))) ∧
    ((∀ c ∈ action.chunks, ∃ p,
        find_context (pySplitlines text) c.del_lines 0 false = .ok p) →
      get_updated_file text action path =
        .ok (if strEndsWithNl text
          then joinNl (update_buffer (pySplitlines text) action.chunks (pySplitlines text))
            ++ "\n"
          else joinNl (update_buffer (pySplitlines text) action.chunks (pySplitlines text)))) := by
  constructor
  · intro hex
    unfold get_updated_file
    rw [if_neg (by simp [hty])]
    rw [(apply_chunks_char (pySplitlines text) path action.chunks (pySplitlines text)).1 hex]
  · intro hall
    unfold get_updated_file
    rw [if_neg (by simp [hty])]
    rw [(apply_chunks_char (pySplitlines text) path action.chunks (pySplitlines text)).2 hall]
    cases strEndsWithNl text <;> simp

/-- Witness for C3 at a concrete input where the original-versus-working
distinction is visible: the first chunk deletes the only line `"c"`, and
the second chunk still locates `"c"` because location queries run on the
pristine original, not on the (now empty) working buffer. -/
theorem claim_C3_witness :
    get_updated_file "c\n"
        ⟨ActionType.update, none, [⟨0, ["c"], []⟩, ⟨0, ["c"], ["z"]⟩], none⟩ "a.py" =
      .ok (if strEndsWithNl "c\n"
        then joinNl (update_buffer (pySplitlines "c\n")
          [⟨0, ["c"], []⟩, ⟨0, ["c"], ["z"]⟩] (pySplitlines "c\n")) ++ "\n"
        else joinNl (update_buffer (pySplitlines "c\n")
          [⟨0, ["c"], []⟩, ⟨0, ["c"], ["z"]⟩] (pySplitlines "c\n"))) ∧
    get_updated_file "c\n"
        ⟨ActionType.update, none, [⟨0, ["c"], []⟩, ⟨0, ["c"], ["z"]⟩], none⟩ "a.py" =
      .ok "z\n" := by
  refine ⟨(claim_C3 "c\n"
    ⟨ActionType.update, none, [⟨0, ["c"], []⟩, ⟨0, ["c"], ["z"]⟩], none⟩ "a.py" rfl).2 ?_, rfl⟩
  intro c hc
  rcases List.mem_cons.mp hc with rfl | hc2
  · exact ⟨(0, 1), rfl⟩
  · rcases List.mem_cons.mp hc2 with rfl | hc3
    · exact ⟨(0, 1), rfl⟩
    · exact absurd hc3 (List.not_mem_nil c)

/-- Appending a newline makes the content end with a newline. -/
theorem strEndsWithNl_append_nl (x : String) : strEndsWithNl (x ++ "\n") = true := by
  unfold strEndsWithNl
  have hdata : (x ++ "\n").data = x.data ++ ['\n'] := by
    rw [String.data_append]
  rw [hdata, List.getLast?_concat]
  rfl

/-- C1 (amended): for an Update action with a single chunk whose
`del_lines` locate in the original lines, the computed content is the
original lines with the first matched slice replaced by the chunk's
`ins_lines`, rejoined with newlines, and a trailing newline is appended
exactly when the original content ended with one (so an original trailing
newline is preserved in the result). -/
theorem claim_C1_amended (text : String) (c : Chunk) (mv : Option String)
    (path : String) (s e : Nat)
    (hfind : find_context (pySplitlines text) c.del_lines 0 false = .ok (s, e)) :
    get_updated_file text ⟨ActionType.update, none, [c], mv⟩ path =
      .ok (if strEndsWithNl text
        then joinNl ((pySplitlines text).take s ++ c.ins_lines ++ (pySplitlines text).drop e)
          ++ "\n"
        else joinNl ((pySplitlines text).take s ++ c.ins_lines ++ (pySplitlines text).drop e)) ∧
    e = s + c.del_lines.length ∧
    matchesAt (pySplitlines text) c.del_lines s = true ∧
    (∀ k, k < s → matchesAt (pySplitlines text) c.del_lines k = false) ∧
    (strEndsWithNl text = true →
      ∃ r, get_updated_file text ⟨ActionType.update, none, [c], mv⟩ path = .ok r ∧
        strEndsWithNl r = true) := by
  have hmain : get_updated_file text ⟨ActionType.update, none, [c], mv⟩ path =
      .ok (if strEndsWithNl text
        then joinNl ((pySplitlines text).take s ++ c.ins_lines ++ (pySplitlines text).drop e)
          ++ "\n"
        else joinNl ((pySplitlines text).take s ++ c.ins_lines
          ++ (pySplitlines text).drop e)) := by
    unfold get_updated_file
    rw [if_neg (by simp)]
    show (match apply_chunks (pySplitlines text) path [c] (pySplitlines text) with
      | .error e => (Except.error e : Except PErr String)
      | .ok newLines =>
        if strEndsWithNl text then Except.ok (joinNl newLines ++ "\n")
        else Except.ok (joinNl newLines)) = _
    simp only [apply_chunks, hfind]
    cases strEndsWithNl text <;> simp
  refine ⟨hmain, ?_, ?_, ?_, ?_⟩
  · cases hdel : c.del_lines with
    | nil =>
      have : find_context (pySplitlines text) c.del_lines 0 false = .ok (0, 0) := by
        rw [hdel]; rfl
      rw [this] at hfind
      have hse := Except.ok.inj hfind
      have hs : (0 : Nat) = s := congrArg Prod.fst hse
      have he : (0 : Nat) = e := congrArg Prod.snd hse
      simp [← hs, ← he, hdel]
    | cons d ds =>
      obtain ⟨-, -, hacc, -, h5⟩ := find_context_ok_char (pySplitlines text) c.del_lines 0
        false (by rw [hdel]; simp) s e hfind
      rcases hacc with hm | ⟨hfalse, -, -, -⟩
      · rw [h5, if_pos hm, hdel]
      · exact absurd hfalse (by simp)
  · cases hdel : c.del_lines with
    | nil => rw [← hdel]; rw [hdel]; simp [matchesAt]
    | cons d ds =>
      obtain ⟨-, -, hacc, -, -⟩ := find_context_ok_char (pySplitlines text) c.del_lines 0
        false (by rw [hdel]; simp) s e hfind
      rcases hacc with hm | ⟨hfalse, -, -, -⟩
      · rw [← hdel]; exact hm
      · exact absurd hfalse (by simp)
  · intro k hk
    cases hdel : c.del_lines with
    | nil =>
      have : find_context (pySplitlines text) c.del_lines 0 false = .ok (0, 0) := by
        rw [hdel]; rfl
      rw [this] at hfind
      have hs : (0 : Nat) = s := congrArg Prod.fst (Except.ok.inj hfind)
      omega
    | cons d ds =>
      obtain ⟨-, -, -, hmin, -⟩ := find_context_ok_char (pySplitlines text) c.del_lines 0
        false (by rw [hdel]; simp) s e hfind
      have hnacc := hmin k (Nat.zero_le k) hk
      rw [← hdel]
      by_contra hcon
      have : matchesAt (pySplitlines text) c.del_lines k = true := by
        revert hcon
        cases matchesAt (pySplitlines text) c.del_lines k <;> simp
      exact hnacc (Or.inl this)
  · intro hnl
    refine ⟨joinNl ((pySplitlines text).take s ++ c.ins_lines
      ++ (pySplitlines text).drop e) ++ "\n", ?_, strEndsWithNl_append_nl _⟩
    rw [hmain, if_pos hnl]

/-- Witness for C1 at the specification's example scenario: snapshot
content `"x\ny\nz\n"`, single chunk with `del_lines = ["x","y","z"]` and
`ins_lines = ["x","w","z"]`, giving result `"x\nw\nz\n"`. -/
theorem claim_C1_witness :
    get_updated_file "x\ny\nz\n"
        ⟨ActionType.update, none, [⟨0, ["x", "y", "z"], ["x", "w", "z"]⟩], none⟩ "a.py" =
      .ok (if strEndsWithNl "x\ny\nz\n"
        then joinNl ((pySplitlines "x\ny\nz\n").take 0 ++ ["x", "w", "z"]
          ++ (pySplitlines "x\ny\nz\n").drop 3) ++ "\n"
        else joinNl ((pySplitlines "x\ny\nz\n").take 0 ++ ["x", "w", "z"]
          ++ (pySplitlines "x\ny\nz\n").drop 3)) ∧
    get_updated_file "x\ny\nz\n"
        ⟨ActionType.update, none, [⟨0, ["x", "y", "z"], ["x", "w", "z"]⟩], none⟩ "a.py" =
      .ok "x\nw\nz\n" :=
  ⟨(claim_C1_amended "x\ny\nz\n" ⟨0, ["x", "y", "z"], ["x", "w", "z"]⟩ none "a.py"
    0 3 rfl).1, rfl⟩

/-- Counterexample to C1 as stated: an Update whose two chunks both match
contiguous slices of the original (`["a"]` at 0 and `["c"]` at 2 in
`"a\nb\nc\nd\n"`). Because the second splice lands at original
coordinates inside the already shifted working buffer, the code produces
`"x\ny\nz\nc\nd\n"`, not the original with each matched slice replaced
(`"x\ny\nb\nz\nd\n"`). -/
theorem claim_C1_counterexample :
    matchesAt (pySplitlines "a\nb\nc\nd\n") ["a"] 0 = true ∧
    matchesAt (pySplitlines "a\nb\nc\nd\n") ["c"] 2 = true ∧
    get_updated_file "a\nb\nc\nd\n"
        ⟨ActionType.update, none, [⟨0, ["a"], ["x", "y"]⟩, ⟨0, ["c"], ["z"]⟩], none⟩ "a.py" =
      .ok "x\ny\nz\nc\nd\n" ∧
    joinNl ((pySplitlines "a\nb\nc\nd\n").take 0 ++ ["x", "y"]
        ++ ((pySplitlines "a\nb\nc\nd\n").drop 1).take 1 ++ ["z"]
        ++ (pySplitlines "a\nb\nc\nd\n").drop 3) ++ "\n" = "x\ny\nb\nz\nd\n" ∧
    "x\ny\nz\nc\nd\n" ≠ "x\ny\nb\nz\nd\n" := by
  refine ⟨rfl, rfl, rfl, rfl, ?_⟩
  decide

/-- C7: input text that does not begin with the literal `*** Begin Patch`
marker makes both `text_to_patch` and `process_patch` fail immediately
with the malformed-patch error; `process_patch` emits no injected
operation at all (empty trace), so the failure precedes any parsing and
any read, write or remove. -/
theorem claim_C7 (fuel : Nat) (text : String) (orig fs : List (String × String))
    (h : strStartsWith text "*** Begin Patch" = false) :
    text_to_patch fuel text orig =
      .error (.diff "Patch must start with *** Begin Patch") ∧
    process_patch fuel text fs =
      (.error (.diff "Patch must start with *** Begin Patch"), []) := by
  constructor
  · unfold text_to_patch
    rw [h]
    rfl
  · unfold process_patch
    rw [h]
    rfl

/-- Witness for C7 at a concrete input: the text `"hello"` is rejected by
both entry points before anything else happens. -/
theorem claim_C7_witness :
    text_to_patch 5 "hello" [] =
      .error (.diff "Patch must start with *** Begin Patch") ∧
    process_patch 5 "hello" [("a.py", "x\n")] =
      (.error (.diff "Patch must start with *** Begin Patch"), []) :=
  claim_C7 5 "hello" [] [("a.py", "x\n")] rfl

/-- The applicator's trace over a commit decomposes change by change. -/
theorem apply_commit_ops_cons (hd : String × FileChange)
    (tl : List (String × FileChange)) :
    apply_commit_ops (hd :: tl) = emit_change hd ++ apply_commit_ops tl := by
  unfold apply_commit_ops
  rw [List.map_cons, List.flatten_cons]

/-- C8: every Update change that carries a rename target contributes the
write to the new path (with the new content) immediately followed by the
remove of the original path — in that order, never remove first — to the
applicator's operation trace, and a fully applied patch returns the fixed
success token `"Done!"`. -/
theorem claim_C8 (changes : List (String × FileChange)) (p m : String) (ch : FileChange)
    (hmem : (p, ch) ∈ changes) (hty : ch.type = ActionType.update)
    (hmv : ch.move_path = some m) :
    (∃ k, (apply_commit_ops changes).get? k =
        some (FileOp.write m (ch.new_content.getD "")) ∧
      (apply_commit_ops changes).get? (k + 1) = some (FileOp.remove p)) ∧
    (∀ fuel text fs r t, process_patch fuel text fs = (.ok r, t) → r = "Done!") := by
  constructor
  · have hemit : emit_change (p, ch) =
        [FileOp.write m (ch.new_content.getD ""), FileOp.remove p] := by
      unfold emit_change
      dsimp only
      rw [hty, hmv]
    induction changes with
    | nil => exact absurd hmem (List.not_mem_nil _)
    | cons hd tl ih =>
      rcases List.mem_cons.mp hmem with heq | hmem'
      · refine ⟨0, ?_, ?_⟩
        · rw [← heq, apply_commit_ops_cons, hemit]
          rfl
        · rw [← heq, apply_commit_ops_cons, hemit]
          rfl
      · obtain ⟨k, h1, h2⟩ := ih hmem'
        refine ⟨(emit_change hd).length + k, ?_, ?_⟩
        · rw [apply_commit_ops_cons, List.get?_append_right (by omega)]
          simpa using h1
        · rw [apply_commit_ops_cons, List.get?_append_right (by omega)]
          have : (emit_change hd).length + k + 1 - (emit_change hd).length = k + 1 := by
            omega
          rw [this]
          exact h2
  · intro fuel text fs r t h
    unfold process_patch at h
    cases hsw : strStartsWith text "*** Begin Patch" with
    | false =>
      rw [hsw] at h
      simp at h
    | true =>
      rw [hsw] at h
      simp only [Bool.not_true, Bool.false_eq_true, if_false] at h
      rcases hres : read_files (identify_files_needed text) fs with ⟨res, ops⟩
      rw [hres] at h
      cases res with
      | error e => simp at h
      | ok orig =>
        dsimp only at h
        cases htp : text_to_patch fuel text orig with
        | error e =>
          rw [htp] at h
          simp at h
        | ok pr =>
          obtain ⟨patch, fz⟩ := pr
          rw [htp] at h
          dsimp only at h
          cases hcm : patch_to_commit patch orig with
          | error e =>
            rw [hcm] at h
            simp at h
          | ok commit =>
            rw [hcm] at h
            dsimp only at h
            simp only [Prod.mk.injEq] at h
            exact (Except.ok.inj h.1).symm

/-- Witness for C8 at a concrete commit: an Update of `a.py` renamed to
`b.py` puts `write b.py` immediately before `remove a.py` in the trace. -/
theorem claim_C8_witness :
    (∃ k, (apply_commit_ops [("a.py",
        ⟨ActionType.update, some "old", some "new", some "b.py"⟩)]).get? k =
        some (FileOp.write "b.py" "new") ∧
      (apply_commit_ops [("a.py",
        ⟨ActionType.update, some "old", some "new", some "b.py"⟩)]).get? (k + 1) =
        some (FileOp.remove "a.py")) ∧
    (∀ fuel text fs r t, process_patch fuel text fs = (.ok r, t) → r = "Done!") :=
  claim_C8 [("a.py", ⟨ActionType.update, some "old", some "new", some "b.py"⟩)]
    "a.py" "b.py" ⟨ActionType.update, some "old", some "new", some "b.py"⟩
    (List.mem_singleton.mpr rfl) rfl rfl

/-- Counterexample to C2 as stated: in the hunk body `["x", ""]` (a
context line then an empty line) the empty line is not pushed onto both
`del_lines` and `ins_lines`; it terminates the hunk body (`break`), so
the parsed chunk is `(["x"], ["x"])` and not `(["x", ""], ["x", ""])`. -/
theorem claim_C2_counterexample :
    parser_parse 100 [("a.py", "x\n")]
        ["*** Begin Patch", "*** Update File: a.py", "@@ ", "x", "", "*** End Patch"] =
      .ok [("a.py", ⟨ActionType.update, none, [⟨0, ["x"], ["x"]⟩], none⟩)] ∧
    (⟨0, ["x"], ["x"]⟩ : Chunk) ≠ ⟨0, ["x", ""], ["x", ""]⟩ := by
  exact ⟨rfl, by decide⟩

/-- C2 (amended): inside a hunk body, one parsing step classifies the
current line as follows — a line starting with `-` is appended without
the marker to `del_lines` only; a line starting with `+` is appended
without the marker to `ins_lines` only; any other non-empty line not
starting with `"@@ "` is appended unchanged to both lists; but an empty
line is consumed and ends the hunk body, appended to neither list. -/
theorem claim_C2_amended (fuel : Nat) (st : PState) (del ins : List String) (l : String)
    (hl : st.lines.get? st.index = some l)
    (hnd : is_done st ["@@ ", "*** "] = false) :
    (l = "" → parse_update_inner (fuel + 1) st del ins =
      .ok (del, ins, { st with index := st.index + 1 })) ∧
    (strStartsWith l "-" = true → parse_update_inner (fuel + 1) st del ins =
      parse_update_inner fuel { st with index := st.index + 1 }
        (del ++ [strDrop l 1]) ins) ∧
    (strStartsWith l "+" = true → parse_update_inner (fuel + 1) st del ins =
      parse_update_inner fuel { st with index := st.index + 1 }
        del (ins ++ [strDrop l 1])) ∧
    (l ≠ "" → strStartsWith l "-" = false → strStartsWith l "+" = false →
      strStartsWith l "@@ " = false → parse_update_inner (fuel + 1) st del ins =
      parse_update_inner fuel { st with index := st.index + 1 }
        (del ++ [l]) (ins ++ [l])) := by
  have hsw0 : strStartsWith l "" = true := by
    show List.isPrefixOf [] l.data = true
    exact List.isPrefixOf_nil_left
  have hread : read_str st "" true = .ok (l, { st with index := st.index + 1 }) := by
    unfold read_str
    rw [hl]
    dsimp only
    rw [hsw0]
    simp
  have hstep : parse_update_inner (fuel + 1) st del ins =
      (if l = "" then .ok (del, ins, { st with index := st.index + 1 })
       else if strStartsWith l "-" then
         parse_update_inner fuel { st with index := st.index + 1 }
           (del ++ [strDrop l 1]) ins
       else if strStartsWith l "+" then
         parse_update_inner fuel { st with index := st.index + 1 }
           del (ins ++ [strDrop l 1])
       else if !(strStartsWith l "@@ ") then
         parse_update_inner fuel { st with index := st.index + 1 }
           (del ++ [l]) (ins ++ [l])
       else parse_update_inner fuel { st with index := st.index + 1 } del ins) := by
    rw [parse_update_inner, hnd]
    simp only [Bool.false_eq_true, if_false]
    rw [hread]
  refine ⟨?_, ?_, ?_, ?_⟩
  · intro he
    rw [hstep, if_pos he]
  · intro hm
    have hne : l ≠ "" := by
      intro he
      rw [he] at hm
      exact Bool.false_ne_true hm
    rw [hstep, if_neg hne, if_pos hm]
  · intro hp
    have hne : l ≠ "" := by
      intro he
      rw [he] at hp
      exact Bool.false_ne_true hp
    have hm : ¬ strStartsWith l "-" = true := by
      intro hm
      have h1 : l.data.take 1 = ['-'] := by
        have := List.isPrefixOf_iff_prefix.mp hm
        obtain ⟨t, ht⟩ := this
        rw [← ht]
        rfl
      have h2 : l.data.take 1 = ['+'] := by
        have := List.isPrefixOf_iff_prefix.mp hp
        obtain ⟨t, ht⟩ := this
        rw [← ht]
        rfl
      rw [h1] at h2
      exact absurd (List.head_eq_of_cons_eq h2) (by decide)
    rw [hstep, if_neg hne, if_neg hm, if_pos hp]
  · intro hne hm hp hat
    rw [hstep, if_neg hne, if_neg (by rw [hm]; exact Bool.false_ne_true),
      if_neg (by rw [hp]; exact Bool.false_ne_true), if_pos (by rw [hat]; rfl)]

/-- Witness for C2 at a concrete input: the line `"-foo"` is consumed and
`"foo"` is appended to `del_lines` only. -/
theorem claim_C2_witness :
    parse_update_inner 5 ⟨[], ["-foo"], 0, []⟩ [] [] =
      parse_update_inner 4 ⟨[], ["-foo"], 1, []⟩ [strDrop "-foo" 1] [] :=
  (claim_C2_amended 4 ⟨[], ["-foo"], 0, []⟩ [] [] "-foo" rfl rfl).2.1 rfl

/-- Substring test on character lists (used to classify error messages). -/
def hasSubstr : List Char → List Char → Bool
  | [], needle => needle.isEmpty
  | c :: t, needle => needle.isPrefixOf (c :: t) || hasSubstr t needle

/-- Specification-side error taxonomy (spec section 7): a DuplicatePath
error is a `DiffError` whose message mentions `Duplicate Path`. -/
def isDuplicatePathError : PErr → Bool
  | .diff m => hasSubstr m.data "Duplicate Path".data
  | _ => false

/-- Sanity check of the classifier on an actual duplicate-path message. -/
example : isDuplicatePathError (.diff "Update File Error: Duplicate Path: a") = true := by
  decide

/-- Counterexample to C6 as stated: the same path `a` appears in two
Update directives, but with `a` absent from the snapshot the parser
raises the MissingFile error for the first directive — not a
DuplicatePath error — so duplicate paths do not always raise
DuplicatePath. -/
theorem claim_C6_counterexample :
    parser_parse 10 []
        ["*** Begin Patch", "*** Update File: a", "*** Update File: a", "*** End Patch"] =
      .error (.diff "Update File Error: Missing File: a") ∧
    isDuplicatePathError (.diff "Update File Error: Missing File: a") = false := by
  exact ⟨rfl, by decide⟩

/-- A concatenation starts with its own first factor. -/
theorem strStartsWith_append_self (pre s : String) :
    strStartsWith (pre ++ s) pre = true := by
  unfold strStartsWith
  rw [String.data_append]
  exact List.isPrefixOf_iff_prefix.mpr (List.prefix_append _ _)

/-- Dropping the first factor's length from a concatenation leaves the
second factor. -/
theorem strDrop_append_self (pre s : String) :
    strDrop (pre ++ s) (strLen pre) = s := by
  unfold strDrop strLen
  rw [String.data_append, List.drop_left]

/-- A line holding a directive yields an in-bounds parser cursor. -/
theorem index_lt_of_get? {st : PState} {l : String}
    (hl : st.lines.get? st.index = some l) : st.index < st.lines.length := by
  by_contra hge
  rw [List.get?_eq_none.mpr (by omega)] at hl
  exact Option.noConfusion hl

/-- A `read_str` whose prefix does not match leaves the parser state
unchanged and yields the empty string. -/
theorem read_str_no_match {st : PState} {l : String} (pre : String)
    (hl : st.lines.get? st.index = some l) (hsw : strStartsWith l pre = false) :
    read_str st pre false = .ok ("", st) := by
  unfold read_str
  rw [hl]
  dsimp only
  rw [hsw]
  simp

/-- A `read_str` whose prefix matches consumes the line and returns the
text after the prefix. -/
theorem read_str_match {st : PState} {l : String} (pre : String)
    (hl : st.lines.get? st.index = some l) (hsw : strStartsWith l pre = true) :
    read_str st pre false =
      .ok (strDrop l (strLen pre), { st with index := st.index + 1 }) := by
  unfold read_str
  rw [hl]
  dsimp only
  rw [hsw]
  simp

/-- `is_done` against a single stop prefix is false while the current line
exists and does not carry that prefix. -/
theorem is_done_single_false {st : PState} {l : String} (pre : String)
    (hl : st.lines.get? st.index = some l) (hsw : strStartsWith l pre = false) :
    is_done st [pre] = false := by
  unfold is_done
  rw [hl]
  dsimp only
  have hlt := index_lt_of_get? hl
  rw [decide_eq_false (by omega)]
  simp [hsw]

/-- C6 (amended): when parsing reaches a directive whose path was already
registered by an earlier directive — whatever kind that earlier action
was, and whichever of Update / Add / Delete the new directive is — the
parser raises the corresponding DuplicatePath error immediately, before
parsing the directive's body or registering anything (the snapshot
requirements of the first directive must have been met for parsing to
reach this point; otherwise a MissingFile error preempts, as the
counterexample shows). -/
theorem claim_C6_amended (fuel : Nat) (st : PState) (p : String) (hp : p ≠ "")
    (hdup : (st.actions.lookup p).isSome = true) :
    (st.lines.get? st.index = some ("*** Update File: " ++ p) →
      parse_loop (fuel + 1) st =
        .error (.diff ("Update File Error: Duplicate Path: " ++ p)) ∧
      isDuplicatePathError (.diff ("Update File Error: Duplicate Path: " ++ p)) = true) ∧
    (st.lines.get? st.index = some ("*** Add File: " ++ p) →
      parse_loop (fuel + 1) st =
        .error (.diff ("Add File Error: Duplicate Path: " ++ p)) ∧
      isDuplicatePathError (.diff ("Add File Error: Duplicate Path: " ++ p)) = true) ∧
    (st.lines.get? st.index = some ("*** Delete File: " ++ p) →
      parse_loop (fuel + 1) st =
        .error (.diff ("Delete File Error: Duplicate Path: " ++ p)) ∧
      isDuplicatePathError (.diff ("Delete File Error: Duplicate Path: " ++ p)) = true) := by
  refine ⟨?_, ?_, ?_⟩
  · intro hl
    have hend : strStartsWith ("*** Update File: " ++ p) "*** End Patch" = false := by
      unfold strStartsWith
      rw [String.data_append]
      rfl
    have hnd := is_done_single_false "*** End Patch" hl hend
    refine ⟨?_, rfl⟩
    rw [parse_loop, hnd]
    simp only [Bool.false_eq_true, if_false]
    rw [read_str_match "*** Update File: " hl (strStartsWith_append_self _ p),
      strDrop_append_self]
    dsimp only
    rw [if_pos hp, hdup]
    simp
  · intro hl
    have hend : strStartsWith ("*** Add File: " ++ p) "*** End Patch" = false := by
      unfold strStartsWith
      rw [String.data_append]
      rfl
    have hupd : strStartsWith ("*** Add File: " ++ p) "*** Update File: " = false := by
      unfold strStartsWith
      rw [String.data_append]
      rfl
    have hnd := is_done_single_false "*** End Patch" hl hend
    refine ⟨?_, rfl⟩
    rw [parse_loop, hnd]
    simp only [Bool.false_eq_true, if_false]
    rw [read_str_no_match "*** Update File: " hl hupd]
    dsimp only
    rw [if_neg (fun h => h rfl)]
    rw [read_str_match "*** Add File: " hl (strStartsWith_append_self _ p),
      strDrop_append_self]
    dsimp only
    rw [if_pos hp, hdup]
    simp
  · intro hl
    have hend : strStartsWith ("*** Delete File: " ++ p) "*** End Patch" = false := by
      unfold strStartsWith
      rw [String.data_append]
      rfl
    have hupd : strStartsWith ("*** Delete File: " ++ p) "*** Update File: " = false := by
      unfold strStartsWith
      rw [String.data_append]
      rfl
    have hadd : strStartsWith ("*** Delete File: " ++ p) "*** Add File: " = false := by
      unfold strStartsWith
      rw [String.data_append]
      rfl
    have hnd := is_done_single_false "*** End Patch" hl hend
    refine ⟨?_, rfl⟩
    rw [parse_loop, hnd]
    simp only [Bool.false_eq_true, if_false]
    rw [read_str_no_match "*** Update File: " hl hupd]
    dsimp only
    rw [if_neg (fun h => h rfl)]
    rw [read_str_no_match "*** Add File: " hl hadd]
    dsimp only
    rw [if_neg (fun h => h rfl)]
    rw [read_str_match "*** Delete File: " hl (strStartsWith_append_self _ p),
      strDrop_append_self]
    dsimp only
    rw [if_pos hp, hdup]
    simp

/-- Witness for C6 at a concrete state: path `a` was registered by an
earlier Delete directive and the current line updates the same path, so
one parsing step raises the Update-side DuplicatePath error. -/
theorem claim_C6_witness :
    parse_loop 4 ⟨[("a", "x\n")], ["*** Update File: a"], 0,
        [("a", ⟨ActionType.delete, none, [], none⟩)]⟩ =
      .error (.diff ("Update File Error: Duplicate Path: " ++ "a")) ∧
    isDuplicatePathError (.diff ("Update File Error: Duplicate Path: " ++ "a")) = true :=
  (claim_C6_amended 3 ⟨[("a", "x\n")], ["*** Update File: a"], 0,
    [("a", ⟨ActionType.delete, none, [], none⟩)]⟩ "a" (by decide) rfl).1 rfl

/-- Lines of the C9 failing input (Update body line `foo` is neither a
`"@@ "` hunk header nor a `"*** "` directive). -/
def c9lines : List String := ["*** Begin Patch", "*** Update File: a.py", "foo"]

/-- Snapshot of the C9 failing input. -/
def c9files : List (String × String) := [("a.py", "")]

/-- On the stuck state (cursor on `foo`) the hunk loop makes no progress:
neither branch of the loop body fires, so the state never changes and
every fuel amount is exhausted — the Python loop runs forever. -/
theorem c9_stuck_outer : ∀ (f : Nat) (chunks : List Chunk),
    parse_update_outer f ⟨c9files, c9lines, 2, []⟩ chunks = .error .noFuel := by
  intro f
  induction f with
  | zero => intro chunks; rfl
  | succ f ih => intro chunks; exact ih chunks

/-- The stuck hunk loop makes `parse_update_file` spin forever as well. -/
theorem c9_stuck_update_file : ∀ f : Nat,
    parse_update_file f ⟨c9files, c9lines, 2, []⟩ "" = .error .noFuel := by
  intro f
  unfold parse_update_file
  rw [c9_stuck_outer f []]

/-- One step of the parse loop on the C9 input reaches the stuck hunk
loop, so the whole parse spins forever. -/
theorem c9_stuck_loop : ∀ f : Nat,
    parse_loop (f + 1) ⟨c9files, c9lines, 1, []⟩ = .error .noFuel := by
  intro f
  have h := c9_stuck_update_file f
  calc parse_loop (f + 1) ⟨c9files, c9lines, 1, []⟩
      = (match parse_update_file f ⟨c9files, c9lines, 2, []⟩ "" with
         | .error e => (.error e : Except PErr PState)
         | .ok (action, st3) =>
             parse_loop f { st3 with actions := st3.actions ++ [("a.py", action)] }) := rfl
    _ = .error .noFuel := by rw [h]

/-- C9: the claim that parsing always terminates fails on the code — on a
patch whose Update body line is neither a `"@@ "` hunk header nor a
`"*** "` directive, the parser's hunk loop never advances its cursor, so
for every fuel amount the fuel-indexed semantics exhausts its fuel: the
Python code loops forever instead of returning a Patch or raising. -/
theorem claim_C9 : ∀ fuel : Nat,
    text_to_patch fuel "*** Begin Patch\n*** Update File: a.py\nfoo" [("a.py", "")] =
      .error .noFuel := by
  intro fuel
  cases fuel with
  | zero => rfl
  | succ f =>
    calc text_to_patch (f + 1) "*** Begin Patch\n*** Update File: a.py\nfoo" [("a.py", "")]
        = (match (match parse_loop (f + 1) ⟨c9files, c9lines, 1, []⟩ with
             | .error e => (.error e : Except PErr (List (String × PatchAction)))
             | .ok st => .ok st.actions) with
           | .error e => (.error e : Except PErr (Patch × Nat))
           | .ok acts => .ok (⟨acts⟩, 0)) := rfl
      _ = .error .noFuel := by rw [c9_stuck_loop f]

/-- Characterization of the Add-file body loop: it consumes exactly the
lines up to the next `"*** "` directive (or end of input) and keeps, in
order, those that are non-empty. -/
theorem parse_add_loop_spec : ∀ (fuel : Nat) (st : PState) (acc out : List String)
    (st' : PState), parse_add_loop fuel st acc = .ok (out, st') →
    out = acc ++ ((st.lines.drop st.index).takeWhile
      (fun l => !(strStartsWith l "*** "))).filter (fun l => !(l == "")) := by
  intro fuel
  induction fuel with
  | zero =>
    intro st acc out st' h
    exact absurd h (by simp [parse_add_loop])
  | succ f ih =>
    intro st acc out st' h
    rw [parse_add_loop] at h
    by_cases hd : is_done st ["*** "] = true
    · rw [if_pos hd] at h
      have hout : acc = out := congrArg Prod.fst (Except.ok.inj h)
      have hempty : (st.lines.drop st.index).takeWhile
          (fun l => !(strStartsWith l "*** ")) = [] := by
        unfold is_done at hd
        rcases Bool.or_eq_true_iff.mp hd with hlen | hline
        · have hlen' : st.lines.length ≤ st.index := of_decide_eq_true hlen
          rw [List.drop_eq_nil_of_le hlen']
          rfl
        · cases hx : st.lines.get? st.index with
          | none => rw [hx] at hline; exact absurd hline (by simp)
          | some l =>
            rw [hx] at hline
            have hsw : strStartsWith l "*** " = true := by
              simpa using hline
            have hlt := index_lt_of_get? hx
            have hdrop : st.lines.drop st.index = l :: st.lines.drop (st.index + 1) := by
              have hgl : st.lines[st.index] = l := by
                have := List.get?_eq_getElem? st.lines st.index
                rw [this, List.getElem?_eq_getElem hlt] at hx
                exact Option.some.inj hx
              rw [List.drop_eq_getElem_cons hlt, hgl]
            rw [hdrop, List.takeWhile_cons, hsw]
            rfl
      rw [hempty, ← hout]
      simp
    · have hd' : is_done st ["*** "] = false := Bool.eq_false_iff.mpr hd
      rw [hd'] at h
      simp only [Bool.false_eq_true, if_false] at h
      have hlt : st.index < st.lines.length := by
        by_contra hge
        apply hd
        unfold is_done
        rw [decide_eq_true (by omega : st.lines.length ≤ st.index)]
        rfl
      obtain ⟨l, hl⟩ : ∃ l, st.lines.get? st.index = some l := by
        rw [List.get?_eq_getElem?, List.getElem?_eq_getElem hlt]
        exact ⟨_, rfl⟩
      have hread : read_str st "" false = .ok (l, { st with index := st.index + 1 }) := by
        unfold read_str
        rw [hl]
        dsimp only
        rw [show strStartsWith l "" = true from List.isPrefixOf_nil_left]
        rfl
      rw [hread] at h
      dsimp only at h
      have hout := ih _ _ _ _ h
      have hgl : st.lines[st.index] = l := by
        have := List.get?_eq_getElem? st.lines st.index
        rw [this, List.getElem?_eq_getElem hlt] at hl
        exact Option.some.inj hl
      have hdrop : st.lines.drop st.index = l :: st.lines.drop (st.index + 1) := by
        rw [List.drop_eq_getElem_cons hlt, hgl]
      have hsw : strStartsWith l "*** " = false := by
        by_contra hcon
        have hsw' : strStartsWith l "*** " = true := by
          revert hcon
          cases strStartsWith l "*** " <;> simp
        apply hd
        unfold is_done
        rw [hl]
        dsimp only
        simp [hsw']
      rw [hdrop, List.takeWhile_cons, hsw]
      simp only [Bool.not_false, if_pos]
      rw [List.filter_cons]
      by_cases hemp : l = ""
      · subst hemp
        rw [if_neg (by simp)]
        rw [if_pos rfl] at hout
        exact hout
      · have hbeq : (l == "") = false := by
          simp only [beq_eq_false_iff_ne, ne_eq]
          exact hemp
        rw [hbeq]
        simp only [Bool.not_false, if_pos]
        rw [if_neg hemp] at hout
        rw [hout, List.append_assoc]
        rfl

/-- Pieces that are non-empty and newline-free join to a string whose
last character is not a newline. -/
theorem joinLinesChar_getLast_ne (xs : List (List Char))
    (h : ∀ x ∈ xs, x ≠ [] ∧ ('\n' ∈ x → False)) :
    (joinLinesChar xs).getLast? ≠ some '\n' := by
  induction xs with
  | nil => simp [joinLinesChar]
  | cons x xs ih =>
    cases xs with
    | nil =>
      obtain ⟨hne, hnl⟩ := h x (List.mem_cons_self x [])
      show x.getLast? ≠ some '\n'
      intro hlast
      exact hnl (List.mem_of_getLast?_eq_some hlast)
    | cons y ys =>
      have hJ : joinLinesChar (y :: ys) ≠ [] := by
        obtain ⟨hy, -⟩ := h y (by simp)
        cases ys with
        | nil => simpa [joinLinesChar] using hy
        | cons z zs => simp [joinLinesChar]
      show (x ++ '\n' :: joinLinesChar (y :: ys)).getLast? ≠ some '\n'
      rw [List.getLast?_append_of_ne_nil _ (by simp)]
      cases hJv : joinLinesChar (y :: ys) with
      | nil => exact absurd hJv hJ
      | cons j js =>
        rw [List.getLast?_cons_cons, ← hJv]
        exact ih (fun x hx => h x (List.mem_cons_of_mem _ hx))

/-- Strings that are non-empty and newline-free join (with `"\n"`) to a
string that does not end with a newline. -/
theorem joinNl_not_endsWithNl (ys : List String)
    (h : ∀ y ∈ ys, y ≠ "" ∧ ('\n' ∈ y.data → False)) :
    strEndsWithNl (joinNl ys) = false := by
  unfold strEndsWithNl joinNl
  have hlast := joinLinesChar_getLast_ne (ys.map String.data) (by
    intro x hx
    obtain ⟨y, hy, rfl⟩ := List.mem_map.mp hx
    obtain ⟨h1, h2⟩ := h y hy
    refine ⟨?_, h2⟩
    intro hnil
    apply h1
    cases y with
    | mk d => exact congrArg String.mk hnil)
  simp only [beq_eq_false_iff_ne, ne_eq]
  exact hlast

/-- C10: `parse_add_file` stores as the new-file text exactly the
non-empty body lines (up to the next `"*** "` directive) joined with
single newlines; every empty body line is dropped, and — when the input
lines are newline-free, as `splitlines` output always is — the stored
text carries no trailing newline. -/
theorem claim_C10 (fuel : Nat) (st : PState) (action : PatchAction) (st' : PState)
    (h : parse_add_file fuel st = .ok (action, st')) :
    action = ⟨ActionType.add,
      some (joinNl (((st.lines.drop st.index).takeWhile
        (fun l => !(strStartsWith l "*** "))).filter (fun l => !(l == "")))), [], none⟩ ∧
    ((∀ l ∈ st.lines, ('\n' ∈ l.data → False)) →
      strEndsWithNl (joinNl (((st.lines.drop st.index).takeWhile
        (fun l => !(strStartsWith l "*** "))).filter (fun l => !(l == "")))) = false) := by
  constructor
  · unfold parse_add_file at h
    cases hal : parse_add_loop fuel st [] with
    | error e =>
      rw [hal] at h
      exact absurd h (by simp)
    | ok pr =>
      obtain ⟨ls, st2⟩ := pr
      rw [hal] at h
      dsimp only at h
      have hls := parse_add_loop_spec fuel st [] ls st2 hal
      have hact : ({ type := ActionType.add, new_file := some (joinNl ls) } : PatchAction)
          = action := congrArg Prod.fst (Except.ok.inj h)
      rw [← hact, hls]
      rfl
  · intro hnl
    apply joinNl_not_endsWithNl
    intro y hy
    have hmem := List.mem_filter.mp hy
    have hy1 : y ∈ st.lines :=
      List.drop_subset st.index st.lines
        ((List.takeWhile_sublist _).subset hmem.1)
    refine ⟨?_, fun hc => hnl y hy1 hc⟩
    intro he
    have hpred := hmem.2
    rw [he] at hpred
    simp at hpred

/-- Witness for C10 at a concrete input: the body `["hello", "",
"world"]` (stopping at `*** End Patch`) is stored as `"hello\nworld"` —
the empty line dropped, newline-joined, no trailing newline. -/
theorem claim_C10_witness :
    (⟨ActionType.add, some "hello\nworld", [], none⟩ : PatchAction) =
      ⟨ActionType.add, some (joinNl ((((["hello", "", "world", "*** End Patch"] :
          List String).drop 0).takeWhile
        (fun l => !(strStartsWith l "*** "))).filter (fun l => !(l == "")))), [], none⟩ ∧
    strEndsWithNl (joinNl ((((["hello", "", "world", "*** End Patch"] :
        List String).drop 0).takeWhile
      (fun l => !(strStartsWith l "*** "))).filter (fun l => !(l == "")))) = false := by
  have h := claim_C10 10 ⟨[], ["hello", "", "world", "*** End Patch"], 0, []⟩
    ⟨ActionType.add, some "hello\nworld", [], none⟩
    ⟨[], ["hello", "", "world", "*** End Patch"], 3, []⟩ rfl
  exact ⟨h.1, h.2 (by decide)⟩

/-- Ports `test_identify_files`: Update and Delete paths are collected. -/
example : identify_files_needed
    "*** Begin Patch\n*** Update File: test1.py\n@@ -1,3 +1,3 @@\na\n-b\n+c\n*** Delete File: test2.py\n*** Add File: test3.py\nnew content\n*** End Patch" =
    ["test1.py", "test2.py"] := rfl

/-- Ports `test_identify_files`: Add paths are collected. -/
example : identify_files_added
    "*** Begin Patch\n*** Update File: test1.py\n@@ -1,3 +1,3 @@\na\n-b\n+c\n*** Delete File: test2.py\n*** Add File: test3.py\nnew content\n*** End Patch" =
    ["test3.py"] := rfl

/-- Ports `test_text_to_patch`: the sample patch parses to one Update
action with `del_lines = ["a", "b"]`, `ins_lines = ["a", "c"]`, fuzz 0. -/
example : text_to_patch 50
    "*** Begin Patch\n*** Update File: test.py\n@@ -1,3 +1,3 @@\na\n-b\n+c\n*** End Patch"
    [("test.py", "a\nb\nc\n")] =
    .ok (⟨[("test.py",
      ⟨ActionType.update, none, [⟨0, ["a", "b"], ["a", "c"]⟩], none⟩)]⟩, 0) := rfl

/-- Ports `test_patch_to_commit`: the sample patch materializes to new
content `"a\nc\nc\n"`. -/
example : patch_to_commit
    ⟨[("test.py", ⟨ActionType.update, none, [⟨0, ["a", "b"], ["a", "c"]⟩], none⟩)]⟩
    [("test.py", "a\nb\nc\n")] =
    .ok ⟨[("test.py",
      ⟨ActionType.update, some "a\nb\nc\n", some "a\nc\nc\n", none⟩)]⟩ := rfl

/-- Ports `test_process_patch`: full pipeline — one read, one write,
success token. -/
example : process_patch 50
    "*** Begin Patch\n*** Update File: test.py\n@@ -1,3 +1,3 @@\na\n-b\n+c\n*** End Patch"
    [("test.py", "a\nb\nc\n")] =
    (.ok "Done!", [FileOp.read "test.py", FileOp.write "test.py" "a\nc\nc\n"]) := rfl
